import Mathlib

/-!
Shallow embedding of the worker-pool dispatcher in `src/src/Pool.js`
(Gearlay/workerpool). Pure JavaScript values are modelled by `JValue`,
worker handles by snapshots of the externally observable fields the
dispatcher reads, and the mutable pool object by the record `PoolState`.
Callback-driven side effects (dispatching a task to a worker, arming a
timer, terminating a worker) are modelled as events returned alongside
the successor state. External nondeterminism (whether a resolver is
still pending, whether `terminateAndNotify` succeeds) is passed in as
oracle functions.
-/

namespace Workerpool

/-- A JavaScript value, as far as the dispatcher inspects one. Arrays
are encoded as cons-chains (`consArr a (consArr b nilArr)` is `[a, b]`)
so that the inductive stays non-nested. -/
inductive JValue where
  | str : String → JValue
  | num : Int → JValue
  | jbool : Bool → JValue
  | undef : JValue
  | nilArr : JValue
  | consArr : JValue → JValue → JValue
deriving DecidableEq, Repr

/-- Build an array value from a list of elements. -/
def JValue.arr (elems : List JValue) : JValue :=
  elems.foldr JValue.consArr JValue.nilArr

/-- `Array.isArray(v)`. -/
def JValue.isArray : JValue → Bool
  | .nilArr => true
  | .consArr _ _ => true
  | _ => false

/-- JavaScript truthiness of a value. -/
def JValue.truthy : JValue → Bool
  | .str s => s != ""
  | .num n => n != 0
  | .jbool b => b
  | .undef => false
  | .nilArr => true
  | .consArr _ _ => true

/-- Per-task options (`ExecOptions`): the `affinity` key read by
`_getWorker`, plus opaque passthrough keys shipped to the worker. -/
structure ExecOptions where
  affinity : Option Int := none
  passthrough : List (String × String) := []
deriving DecidableEq, Repr

/-- Snapshot of a `WorkerHandler` as observed by the pool: its identity,
the current result of `available()`, and the `terminated` flag. -/
structure WorkerH where
  id : Nat
  availableB : Bool
  terminated : Bool := false
deriving DecidableEq, Repr

/-- A queued task record, as built in `Pool.prototype.exec`
(Pool.js lines 142-148): the resolver is identified by `resolverId`,
`timeout` is the deferred delay recorded by the overridden
`promise.timeout` (`null` initially). -/
structure Task where
  method : String
  params : Option JValue
  resolverId : Nat
  timeout : Option Nat := none
  options : Option ExecOptions := none
deriving DecidableEq, Repr

/-- The mutable state of a `Pool` object (Pool.js constructor,
lines 34-93). `maxQueueSize = none` models `Infinity`;
`minWorkers = none` models the field being left `undefined`.
`nextWorkerId` / `nextResolverId` supply fresh identities for
`new WorkerHandler(...)` and `Promise.defer()`. -/
structure PoolState where
  workers : List WorkerH
  tasks : List Task
  maxWorkers : Nat
  minWorkers : Option Nat := none
  maxQueueSize : Option Nat := none
  gradualScaling : Nat := 0
  canCreateWorker : Bool := true
  roundrobin : Bool := false
  lastChosen : Int := -1
  nextWorkerId : Nat := 0
  nextResolverId : Nat := 0
deriving DecidableEq, Repr

/-- The handle produced by `_createWorkerHandler` (Pool.js lines
499-536): a fresh worker, ready to accept work. -/
def freshWorker (s : PoolState) : WorkerH :=
  { id := s.nextWorkerId, availableB := true }

/-- JavaScript array indexing `ws[i]` with an integer index: a negative
index is an ordinary property lookup and yields `undefined`.
(`-0`, the result of e.g. `-1 % 1`, indexes element 0, as in JS.) -/
def jsIndex (ws : List WorkerH) (i : Int) : Option WorkerH :=
  if 0 ≤ i then ws[i.toNat]? else none

/-- Result of the selection chain of `_getWorker` (Pool.js lines
272-293): the chosen worker, if any, and the updated round-robin
cursor. -/
structure SelectResult where
  chosen : Option WorkerH
  lastChosen : Int
deriving DecidableEq, Repr

/-- Lines 272-293 of `_getWorker`: affinity pick
(`workers[affinity % workers.length]`, JS truncated `%`), then
round-robin (`workers[(this.lastChosen = ++this.lastChosen %
workers.length)]`), then the first-available scan. -/
def selectPhase (s : PoolState) (affinity : Option Int) : SelectResult :=
  let ws := s.workers
  let len : Int := ws.length
  let c1 : Option WorkerH :=
    match affinity with
    | some a => jsIndex ws (a.tmod len)
    | none => none
  let rr : Option WorkerH × Int :=
    if c1.isNone ∧ s.roundrobin = true ∧ 0 < ws.length then
      let idx := (s.lastChosen + 1).tmod len
      (jsIndex ws idx, idx)
    else (none, s.lastChosen)
  let c2 := if c1.isSome then c1 else rr.1
  let c3 := if c2.isSome then c2 else ws.find? (fun w => w.availableB)
  { chosen := c3, lastChosen := rr.2 }

/-- Result of `_getWorker`: the pick handed back to `_next`, the
successor pool state, the worker created this call (if any), and the
duration of the gradual-scaling re-arm timer when one was scheduled. -/
structure GetWorkerResult where
  chosen : Option WorkerH
  state : PoolState
  created : Option WorkerH := none
  timerArmed : Option Nat := none
deriving DecidableEq, Repr

/-- `Pool.prototype._getWorker` (Pool.js lines 271-310): run the
selection chain, then, if `workers.length < maxWorkers`, grow —
unconditionally when `gradualScaling === 0`, else only when the
`canCreateWorker` gate is open, closing the gate and scheduling the
re-arm timer. The created worker is appended and used as the pick only
when the chain chose none (`chosenWorker = chosenWorker || worker`). -/
def getWorker (s : PoolState) (affinity : Option Int) : GetWorkerResult :=
  let sel := selectPhase s affinity
  let s1 := { s with lastChosen := sel.lastChosen }
  if s1.workers.length < s1.maxWorkers then
    if s1.gradualScaling = 0 then
      let w := freshWorker s1
      let s2 := { s1 with workers := s1.workers ++ [w],
                          nextWorkerId := s1.nextWorkerId + 1 }
      { chosen := if sel.chosen.isSome then sel.chosen else some w,
        state := s2, created := some w }
    else if s1.canCreateWorker = true then
      let w := freshWorker s1
      let s2 := { s1 with workers := s1.workers ++ [w],
                          nextWorkerId := s1.nextWorkerId + 1,
                          canCreateWorker := false }
      { chosen := if sel.chosen.isSome then sel.chosen else some w,
        state := s2, created := some w, timerArmed := some s1.gradualScaling }
    else { chosen := sel.chosen, state := s1 }
  else { chosen := sel.chosen, state := s1 }

/-- The observable effect of handing a task to a worker: the call
`worker.exec(task.method, task.params, task.resolver, task.options)`
made in `_next` (Pool.js line 238), together with the deferred timeout
armed on the chained execution promise (lines 251-253). -/
structure DispatchEvent where
  workerId : Nat
  method : String
  params : Option JValue
  resolverId : Nat
  options : Option ExecOptions
  armedTimeout : Option Nat
deriving DecidableEq, Repr

/-- The affinity read in `_next` (line 227):
`this.tasks[0].options?.affinity`. -/
def taskAffinity (t : Task) : Option Int :=
  t.options.bind (fun o => o.affinity)

/-- Worker body of `Pool.prototype._next` (Pool.js lines 222-260),
with an explicit fuel argument for structural recursion; the recursion
of line 256 (skipping a task whose resolver already settled) consumes
one queued task per step, so `s.tasks.length` fuel suffices. One
synchronous invocation dispatches at most one task; the continuations
chained in lines 239-248 are asynchronous and are not part of this
step. -/
def nextFuel (pending : Nat → Bool) : Nat → PoolState → PoolState × List DispatchEvent
  | 0, s => (s, [])
  | fuel + 1, s =>
    match s.tasks with
    | [] => (s, [])
    | t :: rest =>
      let gw := getWorker s (taskAffinity t)
      match gw.chosen with
      | none => (gw.state, [])
      | some w =>
        let s1 := { gw.state with tasks := rest }
        if pending t.resolverId then
          (s1, [{ workerId := w.id, method := t.method, params := t.params,
                  resolverId := t.resolverId, options := t.options,
                  armedTimeout := t.timeout }])
        else nextFuel pending fuel s1

/-- `Pool.prototype._next`: run `nextFuel` with enough fuel for the
whole queue. `pending` is the external oracle reporting
`task.resolver.promise.pending` (line 235). -/
def next (pending : Nat → Bool) (s : PoolState) : PoolState × List DispatchEvent :=
  nextFuel pending s.tasks.length s

/-- Outcome of a call to `Pool.prototype.exec`: either the submission
was accepted (returning the id of the freshly deferred resolver, the
successor state and the dispatch events), or an error was thrown
synchronously, leaving the state as recorded. -/
inductive ExecResult where
  | ok (resolverId : Nat) (state : PoolState) (events : List DispatchEvent)
  | threw (msg : String) (state : PoolState)
deriving DecidableEq, Repr

/-- The overflow error message built on Pool.js line 137. -/
def overflowMsg (m : Nat) : String :=
  "Max queue size of " ++ toString m ++ " reached"

/-- Lines 140-168 of `exec`: append the task record (with
`timeout: null`) to the queue, trigger `_next`, and hand back the
deferred promise. -/
def execEnqueue (pending : Nat → Bool) (s : PoolState) (method : String)
    (params : Option JValue) (options : Option ExecOptions) : ExecResult :=
  let rid := s.nextResolverId
  let task : Task := { method := method, params := params, resolverId := rid,
                       timeout := none, options := options }
  let s1 := { s with tasks := s.tasks ++ [task], nextResolverId := rid + 1 }
  let r := next pending s1
  .ok rid r.1 r.2

/-- The string-method body of `exec` (Pool.js lines 133-168): check
the queue bound against `maxQueueSize` (`none` models `Infinity`, so
the `>=` test is never taken), then append the task record and call
`_next`. -/
def execStr (pending : Nat → Bool) (s : PoolState) (method : String)
    (params : Option JValue) (options : Option ExecOptions) : ExecResult :=
  match s.maxQueueSize with
  | some m =>
    if m ≤ s.tasks.length then .threw (overflowMsg m) s
    else execEnqueue pending s method params options
  | none => execEnqueue pending s method params options

/-- The `method` argument of `exec`: a registered method name, a
callable (carried by its serialization `String(method)`), or any other
value. -/
inductive Method where
  | str : String → Method
  | fn : String → Method
  | other : Method
deriving DecidableEq, Repr

/-- The `params` validation of Pool.js lines 129-131:
`params && !Array.isArray(params)`. -/
def badParams (params : Option JValue) : Bool :=
  params.any (fun p => p.truthy && !p.isArray)

/-- `TypeError` message for a malformed `params` argument. -/
def paramsErrMsg : String := "Array expected as argument \"params\""

/-- `TypeError` message for a malformed `method` argument. -/
def methodErrMsg : String := "Function or string expected as argument \"method\""

/-- One `exec` call entered with a string method: validate `params`,
then run the string path. -/
def execStrCall (pending : Nat → Bool) (s : PoolState) (method : String)
    (params : Option JValue) (options : Option ExecOptions) : ExecResult :=
  if badParams params then .threw paramsErrMsg s
  else execStr pending s method params options

/-- `Pool.prototype.exec` (Pool.js lines 127-175). A callable method
is resubmitted as `this.exec("run", [String(method), params])`
(line 171) — note that the recursive call revalidates its (always
well-formed) params and that the `options` argument is not forwarded. -/
def exec (pending : Nat → Bool) (s : PoolState) (method : Method)
    (params : Option JValue) (options : Option ExecOptions) : ExecResult :=
  match method with
  | .str m => execStrCall pending s m params options
  | .fn src =>
    if badParams params then .threw paramsErrMsg s
    else execStrCall pending s "run"
      (some (.arr [.str src, params.getD .undef])) none
  | .other =>
    if badParams params then .threw paramsErrMsg s
    else .threw methodErrMsg s

/-- Result of a call to the overridden `promise.timeout` installed by
`exec` (Pool.js lines 153-163): the successor state and whether the
call was forwarded to the promise's original native `timeout` (the
same, unchanged future is returned either way). -/
structure TimeoutCallResult where
  state : PoolState
  forwardedToNative : Bool
deriving DecidableEq, Repr

/-- The overridden `timeout` closure of Pool.js lines 154-163: if the
task is still queued (`tasks.indexOf(task) !== -1`; tasks are
identified by their resolver), record the delay on the task and return
the same promise; otherwise forward to the original native timeout. -/
def promiseTimeout (s : PoolState) (rid : Nat) (delay : Nat) : TimeoutCallResult :=
  if s.tasks.any (fun t => t.resolverId == rid) then
    { state := { s with tasks := s.tasks.map (fun t =>
        if t.resolverId == rid then { t with timeout := some delay } else t) },
      forwardedToNative := false }
  else
    { state := s, forwardedToNative := true }

/-- Observable outcome of `Pool.prototype.terminate`. `rejected` lists
the `(resolverId, message)` rejections issued to queued tasks;
`termCalls` the `terminateAndNotify(force, timeout)` calls made on the
snapshot; `notified` the `onTerminateWorker` invocations. -/
structure TerminateResult where
  state : PoolState
  rejected : List (Nat × String)
  termCalls : List (Nat × Bool × Option Nat)
  notified : List Nat
deriving DecidableEq, Repr

/-- `Pool.prototype.terminate` (Pool.js lines 419-449). Every queued
resolver is rejected with "Pool terminated" and the queue is cleared;
then for every worker of a snapshot, `terminateAndNotify(force,
timeout)` is called, `_removeWorkerFromList` is chained with `.then`
(so it runs only when termination fulfills, which the oracle `outcome`
decides), and `onTerminateWorker` is chained with `.always` (so it
runs regardless). -/
def terminate (s : PoolState) (force : Bool) (tm : Option Nat)
    (outcome : Nat → Bool) : TerminateResult :=
  let snapshot := s.workers
  let ws := snapshot.foldl
    (fun acc w =>
      if outcome w.id then acc.eraseP (fun x => x.id == w.id) else acc)
    s.workers
  { state := { s with tasks := [], workers := ws },
    rejected := s.tasks.map (fun t => (t.resolverId, "Pool terminated")),
    termCalls := snapshot.map (fun w => (w.id, force, tm)),
    notified := snapshot.map (fun w => w.id) }

/-- `Pool.prototype._removeWorkerFromList` (Pool.js lines 401-407):
splice out the first occurrence of the worker. -/
def removeWorkerFromList (s : PoolState) (wid : Nat) : PoolState :=
  { s with workers := s.workers.eraseP (fun w => w.id == wid) }

/-- Append `n` fresh workers at the tail. -/
def pushFresh : Nat → PoolState → PoolState
  | 0, s => s
  | n + 1, s =>
    pushFresh n { s with workers := s.workers ++ [freshWorker s],
                         nextWorkerId := s.nextWorkerId + 1 }

/-- `Pool.prototype._ensureMinWorkers` (Pool.js lines 486-492): push
fresh workers until `minWorkers` is met (a no-op when `minWorkers` is
unset or 0, both falsy). It does not consult the gradual-scaling
gate. -/
def ensureMinWorkers (s : PoolState) : PoolState :=
  pushFresh (s.minWorkers.getD 0 - s.workers.length) s

/-- `Pool.prototype._removeWorker` (Pool.js lines 371-394): release
the port (external), remove the worker from the list synchronously,
replace it via `_ensureMinWorkers`, then terminate it;
`onTerminateWorker` fires from the termination callback either way.
The returned list holds the `onTerminateWorker` notification. -/
def removeWorker (s : PoolState) (wid : Nat) : PoolState × List Nat :=
  (ensureMinWorkers (removeWorkerFromList s wid), [wid])

/-- The `minWorkers` option: the "max" sentinel or a number. -/
inductive MinWOpt where
  | maxSentinel : MinWOpt
  | num : Int → MinWOpt
deriving DecidableEq, Repr

/-- Constructor options of `Pool` (the subset the dispatcher claims
touch; integer-valued numeric options). -/
structure PoolOptions where
  maxWorkers : Option Int := none
  minWorkers : Option MinWOpt := none
  maxQueueSize : Option Nat := none
  gradualScaling : Option Nat := none
  roundrobin : Bool := false
deriving DecidableEq, Repr

/-- `environment.cpus || 4` (Pool.js line 72): `cpus` absent or 0 is
falsy. -/
def jsCpus (cpus : Option Nat) : Nat :=
  match cpus with
  | some n => if n = 0 then 4 else n
  | none => 4

/-- Error message of `validateMaxWorkers` (Pool.js line 545). -/
def maxWorkersErrMsg : String := "Option maxWorkers must be an integer number >= 1"

/-- Error message of `validateMinWorkers` (Pool.js line 556). -/
def minWorkersErrMsg : String := "Option minWorkers must be an integer number >= 0"

/-- Constructor tail handling `minWorkers` (Pool.js lines 75-84): the
"max" sentinel copies `maxWorkers`; a number raises `maxWorkers` to
`minWorkers` when needed; either way `_ensureMinWorkers` runs
immediately. -/
def mkPoolCore (opts : PoolOptions) (maxW0 : Nat) : Except String PoolState :=
  let base : PoolState :=
    { workers := [], tasks := [], maxWorkers := maxW0,
      maxQueueSize := (match opts.maxQueueSize with
        | some q => if q = 0 then none else some q
        | none => none),
      gradualScaling := opts.gradualScaling.getD 0,
      roundrobin := opts.roundrobin }
  match opts.minWorkers with
  | none => .ok base
  | some .maxSentinel =>
    .ok (ensureMinWorkers { base with minWorkers := some maxW0 })
  | some (.num n) =>
    if n < 0 then .error minWorkersErrMsg
    else .ok (ensureMinWorkers
      { base with minWorkers := some n.toNat,
                  maxWorkers := Nat.max n.toNat maxW0 })

/-- The `Pool` constructor (Pool.js lines 34-93), restricted to the
fields the dispatcher claims concern. `maxQueueSize` 0 is falsy, so
`options.maxQueueSize || Infinity` (line 54) normalizes it to
`Infinity` (`none`); `maxWorkers` must be an integer ≥ 1 when given,
else it defaults to `max(cpus - 1, 1)`. -/
def mkPool (cpus : Option Nat) (opts : PoolOptions) : Except String PoolState :=
  match opts.maxWorkers with
  | some m =>
    if m < 1 then .error maxWorkersErrMsg else mkPoolCore opts m.toNat
  | none => mkPoolCore opts (Nat.max (jsCpus cpus - 1) 1)

/-! ## Helper lemmas -/

theorem pushFresh_workers_length (n : Nat) (s : PoolState) :
    (pushFresh n s).workers.length = s.workers.length + n := by
  induction n generalizing s with
  | zero => rfl
  | succ k ih =>
    simp only [pushFresh, ih]
    simp [List.length_append]
    omega

theorem pushFresh_maxWorkers (n : Nat) (s : PoolState) :
    (pushFresh n s).maxWorkers = s.maxWorkers := by
  induction n generalizing s with
  | zero => rfl
  | succ k ih => simp only [pushFresh, ih]

theorem pushFresh_minWorkers (n : Nat) (s : PoolState) :
    (pushFresh n s).minWorkers = s.minWorkers := by
  induction n generalizing s with
  | zero => rfl
  | succ k ih => simp only [pushFresh, ih]

theorem pushFresh_maxQueueSize (n : Nat) (s : PoolState) :
    (pushFresh n s).maxQueueSize = s.maxQueueSize := by
  induction n generalizing s with
  | zero => rfl
  | succ k ih => simp only [pushFresh, ih]

theorem pushFresh_canCreateWorker (n : Nat) (s : PoolState) :
    (pushFresh n s).canCreateWorker = s.canCreateWorker := by
  induction n generalizing s with
  | zero => rfl
  | succ k ih => simp only [pushFresh, ih]

theorem ensureMinWorkers_workers_length (s : PoolState) :
    (ensureMinWorkers s).workers.length
      = max s.workers.length (s.minWorkers.getD 0) := by
  simp only [ensureMinWorkers, pushFresh_workers_length]
  omega

theorem ensureMinWorkers_maxWorkers (s : PoolState) :
    (ensureMinWorkers s).maxWorkers = s.maxWorkers :=
  pushFresh_maxWorkers _ _

theorem ensureMinWorkers_minWorkers (s : PoolState) :
    (ensureMinWorkers s).minWorkers = s.minWorkers :=
  pushFresh_minWorkers _ _

theorem ensureMinWorkers_maxQueueSize (s : PoolState) :
    (ensureMinWorkers s).maxQueueSize = s.maxQueueSize :=
  pushFresh_maxQueueSize _ _

theorem ensureMinWorkers_canCreateWorker (s : PoolState) :
    (ensureMinWorkers s).canCreateWorker = s.canCreateWorker :=
  pushFresh_canCreateWorker _ _

/-! ## C7: synchronous queue-overflow failure -/

/-- **C7.** When the pool has a finite `maxQueueSize` `mq` and the
queue already holds at least `mq` tasks, `exec` with a string method
(and well-formed `params`) throws `Error("Max queue size of N
reached")` synchronously, and the state — in particular the task
queue — is left exactly as it was. -/
theorem exec_queue_overflow (pending : Nat → Bool) (s : PoolState)
    (m : String) (p : Option JValue) (o : Option ExecOptions) (mq : Nat)
    (hq : s.maxQueueSize = some mq) (hlen : mq ≤ s.tasks.length)
    (hp : badParams p = false) :
    exec pending s (.str m) p o
      = .threw ("Max queue size of " ++ toString mq ++ " reached") s := by
  simp [exec, execStrCall, hp, execStr, hq, hlen, overflowMsg]

/-- Witness pool for `exec_queue_overflow`: `maxQueueSize` 1 with one
task already queued. -/
def overflowPool : PoolState :=
  { workers := [], tasks := [{ method := "m", params := none, resolverId := 0 }],
    maxWorkers := 1, maxQueueSize := some 1 }

theorem exec_queue_overflow_witness :
    exec (fun _ => true) overflowPool (.str "foo") none none
      = .threw ("Max queue size of " ++ toString 1 ++ " reached") overflowPool :=
  exec_queue_overflow (fun _ => true) overflowPool "foo" none none 1 rfl
    (by decide) (by decide)

/-- Does an `exec` outcome represent an accepted submission? -/
def ExecResult.isOk : ExecResult → Bool
  | .ok _ _ _ => true
  | .threw _ _ => false

/-! ## C10: `maxQueueSize: 0` means unbounded -/

/-- **C10.** Constructing a pool with `maxQueueSize: 0` normalizes the
bound to `Infinity` (`options.maxQueueSize || Infinity`, 0 being
falsy), and on any pool state with an infinite bound the string-method
submission path never throws the overflow error, however long the
queue: it always accepts the task. -/
theorem maxQueueSize_zero_unbounded :
    (∀ cpus opts s, opts.maxQueueSize = some 0 → mkPool cpus opts = .ok s →
       s.maxQueueSize = none) ∧
    (∀ pending s m p o, s.maxQueueSize = none →
       (execStr pending s m p o).isOk = true) := by
  constructor
  · intro cpus opts s h0 hmk
    obtain ⟨mw, minw, mqs, gs, rr⟩ := opts
    obtain rfl : mqs = some 0 := h0
    rcases mw with _ | m <;> rcases minw with _ | mo
    all_goals try rcases mo with _ | n
    all_goals simp only [mkPool, mkPoolCore] at hmk
    all_goals try split_ifs at hmk
    all_goals injection hmk with hmk
    all_goals subst hmk
    all_goals simp [ensureMinWorkers_maxQueueSize]
  · intro pending s m p o h
    simp [execStr, h, execEnqueue, ExecResult.isOk]

/-- Witness: a pool built with `maxQueueSize: 0` has an infinite bound
and accepts a submission even with a task already queued. -/
def unboundedPool : PoolState :=
  { workers := [], tasks := [{ method := "m", params := none, resolverId := 0 }],
    maxWorkers := 1, maxQueueSize := none, nextResolverId := 1 }

/-- The state built by `new Pool({maxQueueSize: 0})` with four CPUs. -/
def zeroQueueOptState : PoolState :=
  { workers := [], tasks := [], maxWorkers := 3, maxQueueSize := none }

theorem maxQueueSize_zero_unbounded_witness :
    zeroQueueOptState.maxQueueSize = none ∧
    (execStr (fun _ => true) unboundedPool "foo" none none).isOk = true :=
  ⟨maxQueueSize_zero_unbounded.1 none { maxQueueSize := some 0 } zeroQueueOptState
      rfl rfl,
   maxQueueSize_zero_unbounded.2 (fun _ => true) unboundedPool "foo" none none rfl⟩

/-! ## C2: inline-callable rewrite -/

/-- Pool state for the C2 counterexample: no workers, scaling gate
closed, so a submitted task stays queued and can be inspected. -/
def fnRewritePool : PoolState :=
  { workers := [], tasks := [], maxWorkers := 1, gradualScaling := 5,
    canCreateWorker := false }

/-- Per-task options used in the C2 counterexample. -/
def fnRewriteOpts : ExecOptions := { affinity := some 5 }

/-- The options recorded on the first queued task after an `exec`
outcome, used to observe whether per-task options survived. -/
def ExecResult.firstTaskOptions : ExecResult → Option (Option ExecOptions)
  | .ok _ s _ => s.tasks.head?.map (fun t => t.options)
  | .threw _ _ => none

/-- **C2, counterexample.** `exec` with a callable does *not* forward
the caller's options to the rewritten `("run", …)` submission
(Pool.js line 171 passes no third argument): submitting an inline
callable with `affinity: 5` queues a task with `options` absent,
whereas the explicit `exec("run", [serialized, params], options)` the
claim promises equivalence with queues the options — so the two
outcomes differ. -/
theorem exec_fn_drops_options_counterexample :
    exec (fun _ => true) fnRewritePool (.fn "function f() {}")
        (some (.arr [])) (some fnRewriteOpts)
      ≠ exec (fun _ => true) fnRewritePool (.str "run")
        (some (.arr [.str "function f() {}", .arr []])) (some fnRewriteOpts) ∧
    (exec (fun _ => true) fnRewritePool (.fn "function f() {}")
        (some (.arr [])) (some fnRewriteOpts)).firstTaskOptions = some none ∧
    (exec (fun _ => true) fnRewritePool (.str "run")
        (some (.arr [.str "function f() {}", .arr []]))
        (some fnRewriteOpts)).firstTaskOptions = some (some fnRewriteOpts) := by
  refine ⟨?_, by decide, by decide⟩
  intro h
  have := congrArg ExecResult.firstTaskOptions h
  revert this
  decide

/-- **C2, amended.** For every callable (carried by its serialization)
and every well-formed `params`, `exec(f, params, options)` is
equivalent to resubmitting `exec("run", [String(f), params])` with
*no* options: the serialized source and the original params are
shipped to the worker's built-in `run` method, but the per-task
options of the original call are dropped by the rewrite. -/
theorem exec_fn_rewrite (pending : Nat → Bool) (s : PoolState) (src : String)
    (p : Option JValue) (o : Option ExecOptions) (hp : badParams p = false) :
    exec pending s (.fn src) p o
      = exec pending s (.str "run") (some (.arr [.str src, p.getD .undef])) none := by
  simp [exec, hp]

theorem exec_fn_rewrite_witness :
    exec (fun _ => true) fnRewritePool (.fn "function g() {}") none (some fnRewriteOpts)
      = exec (fun _ => true) fnRewritePool (.str "run")
          (some (.arr [.str "function g() {}", JValue.undef])) none :=
  exec_fn_rewrite (fun _ => true) fnRewritePool "function g() {}" none
    (some fnRewriteOpts) (by decide)

/-- When the selection chain already chose a worker, `_getWorker`
returns that choice in every growth branch and leaves the round-robin
cursor as the chain set it. -/
theorem getWorker_chosen_of_select_some (s : PoolState) (aff : Option Int)
    (w : WorkerH) (h : (selectPhase s aff).chosen = some w) :
    (getWorker s aff).chosen = some w ∧
    (getWorker s aff).state.lastChosen = (selectPhase s aff).lastChosen := by
  simp only [getWorker, h, Option.isSome_some, if_true]
  constructor <;> (split <;> try split <;> try split) <;> rfl

/-! ## C3: affinity selection -/

/-- Pool for the C3 counterexample: two workers, both available, no
round-robin, no room to grow. -/
def affinityPool : PoolState :=
  { workers := [{ id := 0, availableB := true }, { id := 1, availableB := true }],
    tasks := [], maxWorkers := 2 }

/-- **C3, counterexample.** For the (integer) affinity `-1` and two
workers, the claim promises the pick `workers[-1 mod 2] = workers[1]`.
The code computes JavaScript `-1 % 2 = -1` and `workers[-1]` is
`undefined`, so selection falls through to the first-available scan
and returns `workers[0]` instead. -/
theorem affinity_negative_counterexample :
    ((-1 : Int) % (2 : Int) = 1) ∧
    affinityPool.workers.length = 2 ∧
    affinityPool.workers[1]? = some { id := 1, availableB := true } ∧
    (getWorker affinityPool (some (-1))).chosen
      = some { id := 0, availableB := true } := by
  decide

/-- **C3, amended.** For every pool state with `|workers| > 0` and
every *nonnegative* integer affinity `a`, `_getWorker(a)` selects
`workers[a mod |workers|]` unconditionally — regardless of that
worker's `available()`, of the round-robin flag and cursor (which is
left untouched), and of the rest of the state — so this selection
takes priority over round-robin and the first-available scan. -/
theorem affinity_selects_mod (s : PoolState) (a : Int)
    (ha : 0 ≤ a) (hw : 0 < s.workers.length) :
    (getWorker s (some a)).chosen
        = s.workers[(a % (s.workers.length : Int)).toNat]? ∧
    (s.workers[(a % (s.workers.length : Int)).toNat]?).isSome = true ∧
    (getWorker s (some a)).state.lastChosen = s.lastChosen := by
  have hlen : (0 : Int) < (s.workers.length : Int) := by exact_mod_cast hw
  have hidx0 : (0 : Int) ≤ a % (s.workers.length : Int) :=
    Int.emod_nonneg a (by omega)
  have hidxlt : a % (s.workers.length : Int) < (s.workers.length : Int) :=
    Int.emod_lt_of_pos a hlen
  have htoNat : (a % (s.workers.length : Int)).toNat < s.workers.length := by
    omega
  have hsome : (s.workers[(a % (s.workers.length : Int)).toNat]?).isSome = true := by
    simp [List.getElem?_eq_getElem htoNat]
  have htmod : a.tmod (s.workers.length : Int) = a % (s.workers.length : Int) :=
    Int.tmod_eq_emod ha (by omega)
  obtain ⟨w, hwv⟩ := Option.isSome_iff_exists.mp hsome
  have hc1 : jsIndex s.workers (a.tmod (s.workers.length : Int)) = some w := by
    simp [jsIndex, htmod, hidx0, hwv]
  have hsel : selectPhase s (some a) = { chosen := some w, lastChosen := s.lastChosen } := by
    simp [selectPhase, hc1]
  have hchosen : (selectPhase s (some a)).chosen = some w := by rw [hsel]
  obtain ⟨hgw, hlast⟩ := getWorker_chosen_of_select_some s (some a) w hchosen
  exact ⟨by rw [hgw, hwv], hsome, by rw [hlast, hsel]⟩

/-- Witness pool for `affinity_selects_mod`: one busy worker; affinity
5 still pins to it. -/
def affinityWitnessPool : PoolState :=
  { workers := [{ id := 4, availableB := false }], tasks := [], maxWorkers := 1 }

theorem affinity_selects_mod_witness :
    (getWorker affinityWitnessPool (some 5)).chosen
        = affinityWitnessPool.workers[((5 : Int) % (1 : Int)).toNat]? ∧
    (affinityWitnessPool.workers[((5 : Int) % (1 : Int)).toNat]?).isSome = true ∧
    (getWorker affinityWitnessPool (some 5)).state.lastChosen
        = affinityWitnessPool.lastChosen := by
  have h := affinity_selects_mod affinityWitnessPool 5 (by decide) (by decide)
  simpa using h

/-! ## C4: growth runs after selection -/

/-- **C4.** With `gradualScaling == 0` and `|workers| < maxWorkers`,
`_getWorker` always creates a worker and appends it at the tail, and
the returned pick is the selection chain's choice whenever the chain
chose a worker (even a saturated one); the fresh worker is the pick
only if the chain chose none. -/
theorem getWorker_growth_after_selection (s : PoolState) (aff : Option Int)
    (h0 : s.gradualScaling = 0) (hlt : s.workers.length < s.maxWorkers) :
    (getWorker s aff).state.workers = s.workers ++ [freshWorker s] ∧
    (getWorker s aff).created = some (freshWorker s) ∧
    (getWorker s aff).chosen
      = (if (selectPhase s aff).chosen.isSome then (selectPhase s aff).chosen
         else some (freshWorker s)) := by
  simp [getWorker, h0, hlt, freshWorker]

/-- Witness pool for `getWorker_growth_after_selection`: one saturated
worker selected by affinity 0 while a second worker is created. -/
def growthPool : PoolState :=
  { workers := [{ id := 0, availableB := false }], tasks := [], maxWorkers := 2,
    nextWorkerId := 1 }

theorem getWorker_growth_after_selection_witness :
    (getWorker growthPool (some 0)).state.workers
        = growthPool.workers ++ [freshWorker growthPool] ∧
    (getWorker growthPool (some 0)).created = some (freshWorker growthPool) ∧
    (getWorker growthPool (some 0)).chosen
      = (if (selectPhase growthPool (some 0)).chosen.isSome
         then (selectPhase growthPool (some 0)).chosen
         else some (freshWorker growthPool)) :=
  getWorker_growth_after_selection growthPool (some 0) rfl (by decide)

/-! ## C9: gradual-scaling gate -/

/-- **C9.** When `gradualScalingMs > 0`: a closed gate blocks all
creation in `_getWorker` even below `maxWorkers`; an open gate with
room creates exactly one worker, closes the gate in the same step and
schedules the re-arm timer for `gradualScalingMs`; `_getWorker` never
re-opens the gate itself (only the timer does); and
`_ensureMinWorkers` creates its replacement workers regardless of the
gate and without touching it. -/
theorem gradual_scaling_gate :
    (∀ s aff, 0 < s.gradualScaling → s.canCreateWorker = false →
       (getWorker s aff).state.workers = s.workers ∧
       (getWorker s aff).created = none ∧
       (getWorker s aff).timerArmed = none) ∧
    (∀ s aff, 0 < s.gradualScaling → s.canCreateWorker = true →
       s.workers.length < s.maxWorkers →
       (getWorker s aff).created = some (freshWorker s) ∧
       (getWorker s aff).state.canCreateWorker = false ∧
       (getWorker s aff).timerArmed = some s.gradualScaling ∧
       (getWorker s aff).state.workers = s.workers ++ [freshWorker s]) ∧
    (∀ s aff, (getWorker s aff).state.canCreateWorker = true →
       s.canCreateWorker = true) ∧
    (∀ s, (ensureMinWorkers s).workers.length
            = max s.workers.length (s.minWorkers.getD 0) ∧
          (ensureMinWorkers s).canCreateWorker = s.canCreateWorker) := by
  refine ⟨?_, ?_, ?_, ?_⟩
  · intro s aff hpos hgate
    have h0 : ¬ s.gradualScaling = 0 := by omega
    simp [getWorker, h0, hgate]
  · intro s aff hpos hgate hlt
    have h0 : ¬ s.gradualScaling = 0 := by omega
    simp [getWorker, h0, hgate, hlt, freshWorker]
  · intro s aff h
    by_contra hgate
    have hgate' : s.canCreateWorker = false := by
      cases hc : s.canCreateWorker
      · rfl
      · exact absurd hc hgate
    revert h
    simp [getWorker, hgate']
    split <;> try split
    all_goals simp [hgate']
  · intro s
    exact ⟨ensureMinWorkers_workers_length s, ensureMinWorkers_canCreateWorker s⟩

/-- Witness pool for `gradual_scaling_gate`: gate closed, room to
grow, yet no worker is created; and a sibling pool with the gate open
creating one; and `_ensureMinWorkers` replenishing with the gate
closed. -/
def gateClosedPool : PoolState :=
  { workers := [], tasks := [], maxWorkers := 2, gradualScaling := 100,
    canCreateWorker := false, minWorkers := some 2 }

def gateOpenPool : PoolState :=
  { workers := [], tasks := [], maxWorkers := 2, gradualScaling := 100,
    canCreateWorker := true }

theorem gradual_scaling_gate_witness :
    ((getWorker gateClosedPool none).state.workers = gateClosedPool.workers ∧
     (getWorker gateClosedPool none).created = none ∧
     (getWorker gateClosedPool none).timerArmed = none) ∧
    ((getWorker gateOpenPool none).created = some (freshWorker gateOpenPool) ∧
     (getWorker gateOpenPool none).state.canCreateWorker = false ∧
     (getWorker gateOpenPool none).timerArmed = some gateOpenPool.gradualScaling ∧
     (getWorker gateOpenPool none).state.workers
        = gateOpenPool.workers ++ [freshWorker gateOpenPool]) ∧
    ((ensureMinWorkers gateClosedPool).workers.length
        = max gateClosedPool.workers.length (gateClosedPool.minWorkers.getD 0) ∧
     (ensureMinWorkers gateClosedPool).canCreateWorker
        = gateClosedPool.canCreateWorker) :=
  ⟨gradual_scaling_gate.1 gateClosedPool none (by decide) rfl,
   gradual_scaling_gate.2.1 gateOpenPool none (by decide) rfl (by decide),
   gradual_scaling_gate.2.2.2 gateClosedPool⟩

/-! ## C5 and C6: dispatch-loop soundness -/

/-- Every dispatch event emitted by the loop comes from a queued task
whose resolver is still pending, and it carries that task's method,
params, options and recorded deferred timeout. -/
theorem nextFuel_events_sound (pending : Nat → Bool) :
    ∀ (fuel : Nat) (s : PoolState),
      ∀ ev ∈ (nextFuel pending fuel s).2,
        pending ev.resolverId = true ∧
        ∃ t ∈ s.tasks, t.resolverId = ev.resolverId ∧
          ev.armedTimeout = t.timeout ∧ ev.method = t.method ∧
          ev.params = t.params ∧ ev.options = t.options := by
  intro fuel
  induction fuel with
  | zero => intro s ev hev; simp [nextFuel] at hev
  | succ k ih =>
    intro s ev hev
    rw [nextFuel] at hev
    rcases htasks : s.tasks with _ | ⟨t, rest⟩
    · simp [htasks] at hev
    · rcases hch : (getWorker s (taskAffinity t)).chosen with _ | w
      · simp [htasks, hch] at hev
      · by_cases hp : pending t.resolverId = true
        · simp only [htasks, hch, hp, if_true, List.mem_singleton] at hev
          subst hev
          exact ⟨hp, t, by simp [htasks]⟩
        · have hp' : pending t.resolverId = false := by
            cases hpc : pending t.resolverId
            · rfl
            · exact absurd hpc hp
          simp only [htasks, hch, hp', Bool.false_eq_true, if_false] at hev
          obtain ⟨hpend, t', ht', hfields⟩ := ih _ ev hev
          refine ⟨hpend, t', ?_, hfields⟩
          exact List.mem_cons_of_mem _ (by simpa using ht')

/-- Events of a full `_next` call are sound in the same sense. -/
theorem next_events_sound (pending : Nat → Bool) (s : PoolState) :
    ∀ ev ∈ (next pending s).2,
      pending ev.resolverId = true ∧
      ∃ t ∈ s.tasks, t.resolverId = ev.resolverId ∧
        ev.armedTimeout = t.timeout ∧ ev.method = t.method ∧
        ev.params = t.params ∧ ev.options = t.options :=
  nextFuel_events_sound pending s.tasks.length s

/-- **C5.** A task whose resolver is no longer pending when it reaches
the head of the queue is never handed to a worker: whenever
`_getWorker` yields a worker for the head task but the task's resolver
has settled, `_next` pops the task and immediately recurses on the
remaining queue without emitting a `worker.exec` call; moreover every
`worker.exec` call ever emitted by the loop is for a task whose
resolver is still pending. -/
theorem next_skips_settled_tasks :
    (∀ (pending : Nat → Bool) (s : PoolState) (t : Task) (rest : List Task)
       (w : WorkerH),
       s.tasks = t :: rest →
       (getWorker s (taskAffinity t)).chosen = some w →
       pending t.resolverId = false →
       next pending s
         = next pending { (getWorker s (taskAffinity t)).state with tasks := rest }) ∧
    (∀ (pending : Nat → Bool) (s : PoolState) ev,
       ev ∈ (next pending s).2 → pending ev.resolverId = true) := by
  constructor
  · intro pending s t rest w htasks hch hp
    show nextFuel pending s.tasks.length s = _
    rw [nextFuel.eq_def]
    rcases hlen : s.tasks.length with _ | k
    · rw [htasks] at hlen; simp at hlen
    · simp only [htasks, hch, hp, Bool.false_eq_true, if_false]
      have hrest : rest.length = k := by
        rw [htasks] at hlen; simpa using hlen
      simp [next, hrest]
  · intro pending s ev hev
    exact (next_events_sound pending s ev hev).1

/-- Witness for `next_skips_settled_tasks`: a pool whose head task's
resolver has settled; `_next` dispatches the second task only. -/
def settledHeadPool : PoolState :=
  { workers := [{ id := 0, availableB := true }],
    tasks := [{ method := "a", params := none, resolverId := 0 },
              { method := "b", params := none, resolverId := 1 }],
    maxWorkers := 1 }

theorem next_skips_settled_tasks_witness :
    (next (fun rid => rid != 0) settledHeadPool
       = next (fun rid => rid != 0)
           { (getWorker settledHeadPool
               (taskAffinity { method := "a", params := none, resolverId := 0 })).state
             with tasks := [{ method := "b", params := none, resolverId := 1 }] }) ∧
    ((next (fun rid => rid != 0) settledHeadPool).2.map
       (fun ev => ev.resolverId) = [1]) :=
  ⟨next_skips_settled_tasks.1 (fun rid => rid != 0) settledHeadPool
      { method := "a", params := none, resolverId := 0 }
      [{ method := "b", params := none, resolverId := 1 }]
      { id := 0, availableB := true } rfl (by decide) (by decide),
   by decide⟩

/-- **C6.** The overridden `timeout(ms)` of a submitted task's future:
while the task is still queued, calling it only records the delay on
the task (`forwardedToNative = false`, the same future is returned, no
timer armed, the rest of the state untouched); once the task has left
the queue, the call is forwarded to the future's original native
`timeout`, unchanged state. A recorded delay is armed only at dispatch
time: the dispatch event carries exactly the task's recorded
`timeout`. -/
theorem deferred_timeout :
    (∀ (s : PoolState) (rid : Nat) (d : Nat),
       s.tasks.any (fun t => t.resolverId == rid) = true →
       (promiseTimeout s rid d).forwardedToNative = false ∧
       (promiseTimeout s rid d).state.workers = s.workers ∧
       (promiseTimeout s rid d).state.tasks.length = s.tasks.length ∧
       (∀ t ∈ (promiseTimeout s rid d).state.tasks,
          t.resolverId = rid → t.timeout = some d) ∧
       (∀ t ∈ (promiseTimeout s rid d).state.tasks,
          t.resolverId ≠ rid → t ∈ s.tasks)) ∧
    (∀ (s : PoolState) (rid : Nat) (d : Nat),
       s.tasks.any (fun t => t.resolverId == rid) = false →
       promiseTimeout s rid d = { state := s, forwardedToNative := true }) ∧
    (∀ (pending : Nat → Bool) (s : PoolState) ev,
       ev ∈ (next pending s).2 →
       ∃ t ∈ s.tasks, t.resolverId = ev.resolverId ∧
         ev.armedTimeout = t.timeout) := by
  refine ⟨?_, ?_, ?_⟩
  · intro s rid d hq
    refine ⟨by simp [promiseTimeout, hq], by simp [promiseTimeout, hq],
            by simp [promiseTimeout, hq], ?_, ?_⟩
    · intro t ht hrid
      simp only [promiseTimeout, hq, if_true] at ht
      simp only [List.mem_map] at ht
      obtain ⟨t0, ht0, heq⟩ := ht
      by_cases h0 : t0.resolverId == rid
      · rw [if_pos h0] at heq; rw [← heq]
      · rw [if_neg h0] at heq
        subst heq
        exact absurd (by simp [hrid]) h0
    · intro t ht hrid
      simp only [promiseTimeout, hq, if_true] at ht
      simp only [List.mem_map] at ht
      obtain ⟨t0, ht0, heq⟩ := ht
      by_cases h0 : t0.resolverId == rid
      · rw [if_pos h0] at heq
        exfalso
        apply hrid
        rw [← heq]
        simpa using h0
      · rw [if_neg h0] at heq; subst heq; exact ht0
  · intro s rid d hq
    simp [promiseTimeout, hq]
  · intro pending s ev hev
    obtain ⟨_, t, ht, hrid, htm, _⟩ := next_events_sound pending s ev hev
    exact ⟨t, ht, hrid, htm⟩

/-- Witness for `deferred_timeout`: recording a delay on a queued
task, forwarding when not queued, and arming at dispatch. -/
def timeoutPool : PoolState :=
  { workers := [{ id := 0, availableB := true }],
    tasks := [{ method := "a", params := none, resolverId := 5 }],
    maxWorkers := 1 }

theorem deferred_timeout_witness :
    ((promiseTimeout timeoutPool 5 50).forwardedToNative = false ∧
     (promiseTimeout timeoutPool 5 50).state.workers = timeoutPool.workers ∧
     (promiseTimeout timeoutPool 5 50).state.tasks.length
        = timeoutPool.tasks.length ∧
     (∀ t ∈ (promiseTimeout timeoutPool 5 50).state.tasks,
        t.resolverId = 5 → t.timeout = some 50) ∧
     (∀ t ∈ (promiseTimeout timeoutPool 5 50).state.tasks,
        t.resolverId ≠ 5 → t ∈ timeoutPool.tasks)) ∧
    (promiseTimeout timeoutPool 9 50 = { state := timeoutPool, forwardedToNative := true }) ∧
    (∃ t ∈ timeoutPool.tasks,
       t.resolverId
         = (({ workerId := 0, method := "a", params := none, resolverId := 5,
               options := none, armedTimeout := none } : DispatchEvent)).resolverId ∧
       (({ workerId := 0, method := "a", params := none, resolverId := 5,
           options := none, armedTimeout := none } : DispatchEvent)).armedTimeout
         = t.timeout) :=
  ⟨deferred_timeout.1 timeoutPool 5 50 (by decide),
   deferred_timeout.2.1 timeoutPool 9 50 (by decide),
   deferred_timeout.2.2 (fun _ => true) timeoutPool
     { workerId := 0, method := "a", params := none, resolverId := 5,
       options := none, armedTimeout := none } (by decide)⟩

/-! ## C8: the worker-count invariant -/

/-- The invariant of C8: the worker list never exceeds `maxWorkers`,
together with the constructor-normalized side condition
`minWorkers ≤ maxWorkers` that makes it inductive. -/
def WithinMax (s : PoolState) : Prop :=
  s.workers.length ≤ s.maxWorkers ∧ s.minWorkers.getD 0 ≤ s.maxWorkers

instance (s : PoolState) : Decidable (WithinMax s) := by
  unfold WithinMax; infer_instance

theorem getWorker_withinMax (s : PoolState) (aff : Option Int)
    (h : WithinMax s) : WithinMax (getWorker s aff).state := by
  obtain ⟨h1, h2⟩ := h
  unfold WithinMax
  simp only [getWorker]
  split
  next hlt =>
    split
    next => exact ⟨by simp; omega, by simpa using h2⟩
    next =>
      split
      next => exact ⟨by simp; omega, by simpa using h2⟩
      next => exact ⟨by simpa using h1, by simpa using h2⟩
  next => exact ⟨by simpa using h1, by simpa using h2⟩

theorem nextFuel_withinMax (pending : Nat → Bool) :
    ∀ (fuel : Nat) (s : PoolState), WithinMax s →
      WithinMax (nextFuel pending fuel s).1 := by
  intro fuel
  induction fuel with
  | zero => intro s h; simpa [nextFuel] using h
  | succ k ih =>
    intro s h
    rw [nextFuel]
    rcases htasks : s.tasks with _ | ⟨t, rest⟩
    · simpa using h
    · have hg := getWorker_withinMax s (taskAffinity t) h
      rcases hch : (getWorker s (taskAffinity t)).chosen with _ | w
      · simpa [hch] using hg
      · by_cases hp : pending t.resolverId = true
        · simp only [hch, hp, if_true]
          exact ⟨hg.1, hg.2⟩
        · have hp' : pending t.resolverId = false := by
            cases hpc : pending t.resolverId
            · rfl
            · exact absurd hpc hp
          simp only [hch, hp', Bool.false_eq_true, if_false]
          exact ih _ ⟨hg.1, hg.2⟩

theorem next_withinMax (pending : Nat → Bool) (s : PoolState)
    (h : WithinMax s) : WithinMax (next pending s).1 :=
  nextFuel_withinMax pending s.tasks.length s h

theorem execEnqueue_ok_withinMax (pending : Nat → Bool) (s : PoolState)
    (m : String) (p : Option JValue) (o : Option ExecOptions)
    (rid : Nat) (s2 : PoolState) (evs : List DispatchEvent)
    (h : WithinMax s) (he : execEnqueue pending s m p o = .ok rid s2 evs) :
    WithinMax s2 := by
  unfold execEnqueue at he
  injection he with h1 h2 h3
  subst h2
  exact next_withinMax pending _ ⟨h.1, h.2⟩

theorem exec_ok_withinMax (pending : Nat → Bool) (s : PoolState)
    (method : Method) (p : Option JValue) (o : Option ExecOptions)
    (rid : Nat) (s2 : PoolState) (evs : List DispatchEvent)
    (h : WithinMax s) (he : exec pending s method p o = .ok rid s2 evs) :
    WithinMax s2 := by
  have hstr : ∀ (m : String) (p' : Option JValue) (o' : Option ExecOptions),
      execStrCall pending s m p' o' = .ok rid s2 evs → WithinMax s2 := by
    intro m p' o' he'
    unfold execStrCall at he'
    split at he'
    · exact ExecResult.noConfusion he'
    · unfold execStr at he'
      split at he'
      · split at he'
        · exact ExecResult.noConfusion he'
        · exact execEnqueue_ok_withinMax pending s m p' o' rid s2 evs h he'
      · exact execEnqueue_ok_withinMax pending s m p' o' rid s2 evs h he'
  rcases method with m | src | _
  · exact hstr m p o (by simpa [exec] using he)
  · simp only [exec] at he
    split at he
    · exact ExecResult.noConfusion he
    · exact hstr "run" _ none he
  · simp only [exec] at he
    split at he
    · exact ExecResult.noConfusion he
    · exact ExecResult.noConfusion he

theorem ensureMinWorkers_withinMax (s : PoolState) (h : WithinMax s) :
    WithinMax (ensureMinWorkers s) := by
  obtain ⟨h1, h2⟩ := h
  refine ⟨?_, ?_⟩
  · rw [ensureMinWorkers_workers_length, ensureMinWorkers_maxWorkers]; omega
  · rw [ensureMinWorkers_minWorkers, ensureMinWorkers_maxWorkers]; exact h2

theorem removeWorker_withinMax (s : PoolState) (wid : Nat)
    (h : WithinMax s) : WithinMax (removeWorker s wid).1 := by
  obtain ⟨h1, h2⟩ := h
  apply ensureMinWorkers_withinMax
  refine ⟨?_, h2⟩
  simp only [removeWorkerFromList]
  exact le_trans (List.length_eraseP_le _) h1

theorem foldl_eraseP_length_le (outcome : Nat → Bool) :
    ∀ (l acc : List WorkerH),
      (l.foldl (fun acc2 w =>
          if outcome w.id then acc2.eraseP (fun x => x.id == w.id) else acc2)
        acc).length ≤ acc.length := by
  intro l
  induction l with
  | nil => intro acc; simp
  | cons w l ih =>
    intro acc
    simp only [List.foldl_cons]
    refine le_trans (ih _) ?_
    split
    · exact List.length_eraseP_le _
    · exact le_refl _

theorem terminate_withinMax (s : PoolState) (force : Bool) (tm : Option Nat)
    (outcome : Nat → Bool) (h : WithinMax s) :
    WithinMax (terminate s force tm outcome).state := by
  obtain ⟨h1, h2⟩ := h
  refine ⟨?_, h2⟩
  simp only [terminate]
  exact le_trans (foldl_eraseP_length_le outcome s.workers s.workers) h1

theorem mkPool_withinMax (cpus : Option Nat) (opts : PoolOptions)
    (s : PoolState) (hmk : mkPool cpus opts = .ok s) : WithinMax s := by
  obtain ⟨mw, minw, mqs, gs, rr⟩ := opts
  rcases mw with _ | m <;> rcases minw with _ | mo
  all_goals try rcases mo with _ | n
  all_goals simp only [mkPool, mkPoolCore] at hmk
  all_goals try split_ifs at hmk
  all_goals injection hmk with hmk
  all_goals subst hmk
  all_goals try apply ensureMinWorkers_withinMax
  all_goals exact ⟨by simp, by simp⟩

/-- **C8.** `|workers| ≤ maxWorkers` (packaged with the normalized
side condition `minWorkers ≤ maxWorkers` as `WithinMax`) holds for
every state the constructor produces and is preserved by every pool
operation: `_getWorker` growth, the `_next` dispatch loop, an accepted
`exec` submission, `_ensureMinWorkers` replacement, `_removeWorker`,
and `terminate`. -/
theorem workers_bounded_by_maxWorkers :
    (∀ cpus opts s, mkPool cpus opts = .ok s → WithinMax s) ∧
    (∀ s aff, WithinMax s → WithinMax (getWorker s aff).state) ∧
    (∀ pending s, WithinMax s → WithinMax (next pending s).1) ∧
    (∀ pending s method p o rid s2 evs, WithinMax s →
       exec pending s method p o = .ok rid s2 evs → WithinMax s2) ∧
    (∀ s, WithinMax s → WithinMax (ensureMinWorkers s)) ∧
    (∀ s wid, WithinMax s → WithinMax (removeWorker s wid).1) ∧
    (∀ s force tm outcome, WithinMax s →
       WithinMax (terminate s force tm outcome).state) :=
  ⟨mkPool_withinMax, getWorker_withinMax, next_withinMax,
   exec_ok_withinMax, ensureMinWorkers_withinMax, removeWorker_withinMax,
   terminate_withinMax⟩

/-- Witness pool for `workers_bounded_by_maxWorkers`. -/
def boundedPool : PoolState :=
  { workers := [{ id := 0, availableB := true }], tasks := [],
    maxWorkers := 2, minWorkers := some 1 }

theorem workers_bounded_by_maxWorkers_witness :
    WithinMax (getWorker boundedPool none).state ∧
    WithinMax (terminate boundedPool false none (fun _ => true)).state :=
  ⟨workers_bounded_by_maxWorkers.2.1 boundedPool none ⟨by decide, by decide⟩,
   workers_bounded_by_maxWorkers.2.2.2.2.2.2 boundedPool false none
     (fun _ => true) ⟨by decide, by decide⟩⟩

/-! ## C1: terminate -/

theorem eraseP_id_eq_filter (i : Nat) :
    ∀ (acc : List WorkerH), (acc.map (fun w => w.id)).Nodup →
      acc.eraseP (fun x => x.id == i) = acc.filter (fun x => !(x.id == i)) := by
  intro acc
  induction acc with
  | nil => intro _; rfl
  | cons a t ih =>
    intro hnd
    simp only [List.map_cons, List.nodup_cons] at hnd
    obtain ⟨hnotin, hnd'⟩ := hnd
    by_cases ha : (a.id == i) = true
    · have hai : a.id = i := by simpa using ha
      rw [List.eraseP_cons, ha, cond_true, List.filter_cons_of_neg (by simp [ha])]
      symm
      rw [List.filter_eq_self]
      intro x hx
      have hxne : x.id ≠ i := by
        intro hxi
        exact hnotin (by
          rw [hai, ← hxi]
          exact List.mem_map_of_mem _ hx)
      simp [hxne]
    · have ha' : (a.id == i) = false := by
        cases h : (a.id == i)
        · rfl
        · exact absurd h ha
      rw [List.eraseP_cons, ha', cond_false,
        List.filter_cons_of_pos (by simp [ha'])]
      rw [ih hnd']

theorem termFold_eq_filter (outcome : Nat → Bool) :
    ∀ (l acc : List WorkerH), (acc.map (fun w => w.id)).Nodup →
      l.foldl (fun acc2 w =>
          if outcome w.id then acc2.eraseP (fun x => x.id == w.id) else acc2) acc
        = acc.filter (fun x =>
            !(outcome x.id && l.any (fun w2 => w2.id == x.id))) := by
  intro l
  induction l with
  | nil =>
    intro acc _
    rw [List.foldl_nil]
    symm
    rw [List.filter_eq_self]
    intro x _
    simp
  | cons w l ih =>
    intro acc hnd
    simp only [List.foldl_cons]
    by_cases hw : outcome w.id = true
    · rw [if_pos hw, eraseP_id_eq_filter w.id acc hnd]
      have hnd2 : ((acc.filter (fun x => !(x.id == w.id))).map (fun w => w.id)).Nodup :=
        List.Nodup.sublist (List.Sublist.map _ (List.filter_sublist _)) hnd
      rw [ih _ hnd2, List.filter_filter]
      apply List.filter_congr
      intro x hx
      simp only [List.any_cons]
      by_cases hxw : x.id = w.id
      · have hb : (x.id == w.id) = true := by simpa using hxw
        have hb2 : (w.id == x.id) = true := by simpa using hxw.symm
        have hox : outcome x.id = true := by rw [hxw]; exact hw
        simp [hb, hb2, hox]
      · have hb : (x.id == w.id) = false := by simpa using hxw
        have hb2 : (w.id == x.id) = false := by
          simp only [beq_eq_false_iff_ne, ne_eq]
          exact fun h => hxw h.symm
        simp [hb, hb2]
    · have hw' : outcome w.id = false := by
        cases h : outcome w.id
        · rfl
        · exact absurd h hw
      rw [if_neg (by simp [hw']), ih _ hnd]
      apply List.filter_congr
      intro x hx
      simp only [List.any_cons]
      by_cases hxw : x.id = w.id
      · have hox : outcome x.id = false := by rw [hxw]; exact hw'
        simp [hox]
      · have hb2 : (w.id == x.id) = false := by
          simp only [beq_eq_false_iff_ne, ne_eq]
          exact fun h => hxw h.symm
        simp [hb2]

/-- Pool for the C1 counterexample: one worker whose
`terminateAndNotify` rejects. -/
def failingTermPool : PoolState :=
  { workers := [{ id := 7, availableB := true }],
    tasks := [{ method := "m", params := none, resolverId := 3 }],
    maxWorkers := 1 }

/-- **C1, counterexample.** When `terminateAndNotify` rejects for a
worker, `terminate` does *not* remove it from the worker list — the
removal is chained with `.then`, which only runs on fulfillment —
although `onTerminateWorker` (chained with `.always`) still fires and
the queued task is still rejected. The claim's "regardless of whether
that call succeeds or fails — removes that worker from the worker
list" is therefore false. -/
theorem terminate_failure_keeps_worker_counterexample :
    (terminate failingTermPool true none (fun _ => false)).state.workers
        = failingTermPool.workers ∧
    (terminate failingTermPool true none (fun _ => false)).state.workers ≠ [] ∧
    (terminate failingTermPool true none (fun _ => false)).notified = [7] ∧
    (terminate failingTermPool true none (fun _ => false)).rejected
        = [(3, "Pool terminated")] := by
  decide

/-- **C1, amended.** `terminate(force, timeoutMs)` rejects every
queued task's resolver with a "Pool terminated" error and empties the
task queue; then, for each worker in a snapshot of the worker list, it
calls `terminateAndNotify(force, timeoutMs)` and — regardless of
whether that call succeeds or fails — invokes `onTerminateWorker` with
its descriptor; the worker is removed from the worker list only when
its `terminateAndNotify` call succeeds (for pairwise-distinct worker
identities, the surviving list is exactly the workers whose
termination failed). -/
theorem terminate_spec (s : PoolState) (force : Bool) (tm : Option Nat)
    (outcome : Nat → Bool)
    (hnd : (s.workers.map (fun w => w.id)).Nodup) :
    (terminate s force tm outcome).rejected
        = s.tasks.map (fun t => (t.resolverId, "Pool terminated")) ∧
    (terminate s force tm outcome).state.tasks = [] ∧
    (terminate s force tm outcome).termCalls
        = s.workers.map (fun w => (w.id, force, tm)) ∧
    (terminate s force tm outcome).notified = s.workers.map (fun w => w.id) ∧
    (terminate s force tm outcome).state.workers
        = s.workers.filter (fun w => !(outcome w.id)) := by
  refine ⟨rfl, rfl, rfl, rfl, ?_⟩
  show s.workers.foldl _ s.workers = _
  rw [termFold_eq_filter outcome s.workers s.workers hnd]
  apply List.filter_congr
  intro x hx
  have hany : s.workers.any (fun w2 => w2.id == x.id) = true :=
    List.any_eq_true.mpr ⟨x, hx, by simp⟩
  simp [hany]

/-- Pool for the `terminate_spec` witness: two workers, one whose
termination succeeds and one whose termination fails. -/
def mixedTermPool : PoolState :=
  { workers := [{ id := 0, availableB := true }, { id := 1, availableB := false }],
    tasks := [{ method := "m", params := none, resolverId := 4 }],
    maxWorkers := 2 }

theorem terminate_spec_witness :
    (terminate mixedTermPool false (some 100) (fun wid => wid == 0)).rejected
        = mixedTermPool.tasks.map (fun t => (t.resolverId, "Pool terminated")) ∧
    (terminate mixedTermPool false (some 100) (fun wid => wid == 0)).state.tasks = [] ∧
    (terminate mixedTermPool false (some 100) (fun wid => wid == 0)).termCalls
        = mixedTermPool.workers.map (fun w => (w.id, false, some 100)) ∧
    (terminate mixedTermPool false (some 100) (fun wid => wid == 0)).notified
        = mixedTermPool.workers.map (fun w => w.id) ∧
    (terminate mixedTermPool false (some 100) (fun wid => wid == 0)).state.workers
        = mixedTermPool.workers.filter (fun w => !((fun wid => wid == 0) w.id)) :=
  terminate_spec mixedTermPool false (some 100) (fun wid => wid == 0) (by decide)

end Workerpool
